import Mathlib

/-!
Shallow embedding of the EFL-POC document-extraction pipeline
(`src/unnamed/part_000`, an Express/OpenAI extraction server).

Conventions of the embedding:
* JS values handled by the merge step are modelled by `JsonVal`.
  JS numbers are modelled by `Rat` (exact arithmetic standing in for IEEE
  doubles); the confidence values of the pipeline are JSON numbers or null, and
  no claim depends on float rounding.
* JS objects are association lists in property order; `JSON.parse` of a
  model response yields such a value.
* Fallible JS code (`throw`) is modelled with `Except String` carrying the
  error message; external collaborators (file bytes, the pdf rasterizer,
  the OpenAI call) are parameters of the functions that consume them.
* The filesystem relevant to the pipeline is the listing of the shared
  temp-images directory, a duplicate-free `List String` of file names.
-/

/-- A JSON value as produced by `JSON.parse`: null, boolean, number
(modelled exactly by `Rat`), string, array, or object given as an
association list in property order. -/
inductive JsonVal where
  | null : JsonVal
  | bool : Bool → JsonVal
  | num : Rat → JsonVal
  | str : String → JsonVal
  | arr : List JsonVal → JsonVal
  | obj : List (String × JsonVal) → JsonVal

mutual

/-- Structural equality of JSON values, the comparison `new Set` applies to
the primitive (string) entries of `missing_fields`. -/
def jsonBeq : JsonVal → JsonVal → Bool
  | .null, .null => true
  | .bool a, .bool b => a == b
  | .num a, .num b => a == b
  | .str a, .str b => a == b
  | .arr a, .arr b => jsonListBeq a b
  | .obj a, .obj b => jsonObjBeq a b
  | _, _ => false

/-- Pointwise `jsonBeq` on arrays. -/
def jsonListBeq : List JsonVal → List JsonVal → Bool
  | [], [] => true
  | a :: as, b :: bs => jsonBeq a b && jsonListBeq as bs
  | _, _ => false

/-- Pointwise `jsonBeq` on object fields. -/
def jsonObjBeq : List (String × JsonVal) → List (String × JsonVal) → Bool
  | [], [] => true
  | (k1, v1) :: as, (k2, v2) :: bs => k1 == k2 && jsonBeq v1 v2 && jsonObjBeq as bs
  | _, _ => false

end

/-- JS property read `d[k]`: `some` the stored value for objects that have
the key, `none` (JS `undefined`) otherwise. -/
def objGet : JsonVal → String → Option JsonVal
  | .obj l, k => l.lookup k
  | _, _ => none

/-- JS property write on an association list: an existing key keeps its
position, a new key is appended (JS property-order semantics). -/
def setKey : List (String × JsonVal) → String → JsonVal → List (String × JsonVal)
  | [], k, v => [(k, v)]
  | (k0, v0) :: rest, k, v =>
      if k0 = k then (k, v) :: rest else (k0, v0) :: setKey rest k v

/-- JS property assignment `d[k] = v` (a no-op on non-objects; the merge
only ever assigns onto the parsed JSON object of the first batch). -/
def objSet : JsonVal → String → JsonVal → JsonVal
  | .obj l, k, v => .obj (setKey l k v)
  | d, _, _ => d

/-- JS truthiness of a `JsonVal`. -/
def jsTruthy : JsonVal → Bool
  | .null => false
  | .bool b => b
  | .num q => decide (q ≠ 0)
  | .str s => decide (s ≠ "")
  | .arr _ => true
  | .obj _ => true

/-- Elements contributed by one result under
`flatMap (data => data.field || [])` (part_000 lines 236 and 246): an
absent or falsy field contributes nothing, an array contributes its
elements, and a truthy non-array value is kept as a single element by
`flatMap`. -/
def orElems : Option JsonVal → List JsonVal
  | some (.arr l) => l
  | some v => if jsTruthy v then [v] else []
  | none => []

/-- The line items one batch result contributes to the merge
(`data.line_items || []`, line 236). -/
def jsonLineItems (d : JsonVal) : List JsonVal :=
  orElems (objGet d "line_items")

/-- The missing fields one batch result contributes to the merge
(`data.missing_fields || []`, line 246). -/
def missingOf (d : JsonVal) : List JsonVal :=
  orElems (objGet d "missing_fields")

/-- The summand `(d.extraction_confidence?.overall || 0)` of line 241:
optional chaining yields `undefined` unless `extraction_confidence` is an
object with the key, and `|| 0` turns anything but a number into `0`.
(The embedding is read on numeric-or-null confidence values, the only
shapes the schema produces.) -/
def confOverallOr0 (d : JsonVal) : Rat :=
  match objGet d "extraction_confidence" with
  | some c =>
      match objGet c "overall" with
      | some (.num q) => q
      | _ => 0
  | none => 0

/-- Set insertion order: keep an element only when no equal element was
seen before it. -/
def dedupSeen (seen : List JsonVal) : List JsonVal → List JsonVal
  | [] => []
  | a :: l => if seen.any (fun b => jsonBeq a b) then dedupSeen seen l
      else a :: dedupSeen (a :: seen) l

/-- First-occurrence-preserving deduplication, the semantics of
`[...new Set(xs)]` (line 247) on structurally comparable values. -/
def dedupKeepFirst (l : List JsonVal) : List JsonVal :=
  dedupSeen [] l

/-- Lines 223-252, `mergeExtractedData`: `null` for an empty input, the
first (and only) element for a singleton, and otherwise a deep copy of the
first result whose `line_items`, `extraction_confidence` and
`missing_fields` keys are reassigned in that order. `JSON.parse
(JSON.stringify x)` is the identity at the value level, so the deep copy
is the value itself. The `length > 0` ternary of line 240 is kept even
though it is always true on this branch. -/
def mergeExtractedData (extractedDataArray : List JsonVal) : Option JsonVal :=
  match extractedDataArray with
  | [] => none
  | [r] => some r
  | r0 :: _ =>
      let items := extractedDataArray.flatMap jsonLineItems
      let overallVal : JsonVal :=
        if extractedDataArray.length > 0 then
          .num ((extractedDataArray.map confOverallOr0).sum / extractedDataArray.length)
        else .null
      let conf := JsonVal.obj [("overall", overallVal), ("line_items", .num items.length)]
      let missing := dedupKeepFirst (extractedDataArray.flatMap missingOf)
      some (objSet (objSet (objSet r0 "line_items" (.arr items))
        "extraction_confidence" conf) "missing_fields" (.arr missing))

/-- Reads `m.extraction_confidence?.overall` of a merged result. -/
def confOverallOf (m : JsonVal) : Option JsonVal :=
  match objGet m "extraction_confidence" with
  | some c => objGet c "overall"
  | none => none

/-- Reads `m.extraction_confidence?.line_items` of a merged result. -/
def confLineItemsOf (m : JsonVal) : Option JsonVal :=
  match objGet m "extraction_confidence" with
  | some c => objGet c "line_items"
  | none => none

/-- Clamps one argument of `Array.prototype.slice` to an index of a
length-`len` array: negative arguments count from the end, positive ones
are capped at `len`. -/
def jsSliceIdx (len : Nat) (x : Int) : Nat :=
  if x < 0 then (len + x).toNat else min x.toNat len

/-- JS `l.slice(s, e)`: the elements from the clamped start index up to
but excluding the clamped end index. -/
def jsSlice (l : List α) (s e : Int) : List α :=
  (l.take (jsSliceIdx l.length e)).drop (jsSliceIdx l.length s)

/-- Lines 338-341, the batch-building loop
`for (let i = 0; i < allImagePaths.length; i += batchSize)
   batches.push(allImagePaths.slice(i, i + batchSize))`,
run for at most `fuel` iterations from index `i`. `none` means the fuel
ran out with the loop guard still true, i.e. the loop is still running
after `fuel` iterations; the source loop has no other way to stop. -/
def batchLoop (allImagePaths : List α) (batchSize : Int) : Nat → Int → Option (List (List α))
  | 0, i => if i < (allImagePaths.length : Int) then none else some []
  | fuel + 1, i =>
      if i < (allImagePaths.length : Int) then
        (batchLoop allImagePaths batchSize fuel (i + batchSize)).map
          (fun bs => jsSlice allImagePaths i (i + batchSize) :: bs)
      else some []

/-- The batch partition of the page list: the batch loop started at index
0 with enough fuel for every terminating run (the index advances by at
least one per iteration whenever `batchSize ≥ 1`). -/
def partitionBatches (allImagePaths : List α) (batchSize : Int) : Option (List (List α)) :=
  batchLoop allImagePaths batchSize allImagePaths.length 0

/-- Chunks of size `b + 1`: the reference shape the batch loop produces
for a positive batch size. -/
def chunksAux (b : Nat) : List α → List (List α)
  | [] => []
  | a :: l => ((a :: l).take (b + 1)) :: chunksAux b (l.drop b)
termination_by l => l.length
decreasing_by
  simp only [List.length_drop, List.length_cons]
  omega

/-- Contiguous chunks of size `B` (meaningful for `B > 0`). -/
def chunks (B : Nat) (l : List α) : List (List α) :=
  chunksAux (B - 1) l

/-- The characters of a path after its last `/` (the basename). -/
def afterLastSlash (s : List Char) : List Char :=
  ((s.reverse).takeWhile (fun c => c ≠ '/')).reverse

/-- The Node function `path.extname`: the suffix of the basename from its last dot,
empty when the basename has no dot or starts with its only dot. -/
def extnameChars (s : List Char) : List Char :=
  let b := afterLastSlash s
  let tailRev := b.reverse.takeWhile (fun c => c ≠ '.')
  if tailRev.length = b.length then []
  else if tailRev.length + 1 = b.length then []
  else '.' :: tailRev.reverse

/-- The Node function `path.extname` on a path string. -/
def extname (s : String) : String :=
  ⟨extnameChars s.data⟩

/-- Character-wise lower-casing, the semantics of `String.toLowerCase`
on ASCII names (defined on the character list so that it evaluates by
kernel reduction). -/
def lowerStr (s : String) : String :=
  ⟨s.data.map Char.toLower⟩

/-- The first four bytes are `%PDF` (lines 294-295); JS indexing past the
end of the buffer yields `undefined`, which compares unequal, so a buffer
shorter than four bytes never matches. -/
def hasPdfMagic : List Nat → Bool
  | a :: b :: c :: d :: _ => a == 0x25 && b == 0x50 && c == 0x44 && d == 0x46
  | _ => false

/-- Lines 287-299, `isPdfFile`: the lower-cased `path.extname` must be
`.pdf`, and then the file content must begin with the `%PDF` signature.
`fileBytes` models `fs.readFileSync` (the `{start, end}` options it is
called with are not `readFileSync` options and are ignored by Node, so
the whole file is read; only the first four bytes are inspected either
way). -/
def isPdfFile (fileBytes : String → List Nat) (filePath : String) : Bool :=
  if lowerStr (extname filePath) ≠ ".pdf" then false
  else hasPdfMagic (fileBytes filePath)

/-- The filter of line 201 on the temp-directory listing:
`file.startsWith("page") && file.endsWith(".png")`. -/
def isPage (f : String) : Bool :=
  "page".data.isPrefixOf f.data && ".png".data.isSuffixOf f.data

/-- `parseInt(name.match(/\d+/)?.[0] || 0)` of lines 204-205: the first
run of digits anywhere in the name, `0` when there is none. -/
def firstNat (s : String) : Nat :=
  ((s.data.dropWhile (fun c => !c.isDigit)).takeWhile Char.isDigit).foldl
    (fun n c => n * 10 + (c.toNat - 48)) 0

/-- Stable insertion by embedded page number: an element goes after every
element with a smaller-or-equal number already in place. -/
def insertByNum (a : String) : List String → List String
  | [] => [a]
  | x :: l => if firstNat a < firstNat x then a :: x :: l else x :: insertByNum a l

/-- Stable sort by embedded page number (insertion sort — any stable sort
under the same key gives the same list, so this matches the stable JS
`sort` with comparator `numA - numB` of lines 202-207). -/
def sortByNum : List String → List String
  | [] => []
  | a :: l => insertByNum a (sortByNum l)

/-- Lines 200-208: the `page*.png` entries of the temp-directory listing,
sorted by embedded page number. -/
def listPageFiles (listing : List String) : List String :=
  sortByNum (listing.filter isPage)

/-- Files the rasterizer writes into the temp directory: a name already
present is overwritten in place, a new name is appended to the listing. -/
def insertAll (fs created : List String) : List String :=
  created.foldl (fun s n => if n ∈ s then s else s ++ [n]) fs

/-- Lines 179-216, `convertPdfToImages`: `raster` models `pdf.convert`
(the files it writes to the shared temp directory, or a thrown error) and
`fs` is the temp-directory listing beforehand. On success the function
returns every sorted `page*.png` name in the directory — including pages
left by earlier conversions — together with the new listing; there is no
check that the conversion produced any page. On error it rethrows with
the line-214 message. -/
def convertPdfToImages (raster : Except String (List String)) (fs : List String) :
    Except String (List String × List String) :=
  match raster with
  | .error msg => .error ("Failed to convert PDF to images: " ++ msg)
  | .ok created =>
      let fs2 := insertAll fs created
      .ok (listPageFiles fs2, fs2)

/-- Lines 315-325, the file-expansion loop of `extractDataWithOpenAI`:
accumulates `allImagePaths` and `allTempImagePaths` across the input
files, threading the temp-directory listing; a rasterization error stops
the loop (the surrounding `try` is left), with the temp paths registered
so far kept for the `catch`-side cleanup. -/
def expandLoop (fileBytes : String → List Nat) (raster : String → Except String (List String)) :
    List String → List String → List String → List String →
    (List String × List String × List String × Option String)
  | [], imgs, tmp, fs => (imgs, tmp, fs, none)
  | f :: rest, imgs, tmp, fs =>
      if isPdfFile fileBytes f then
        match convertPdfToImages (raster f) fs with
        | .error e => (imgs, tmp, fs, some e)
        | .ok (pages, fs2) => expandLoop fileBytes raster rest (imgs ++ pages) (tmp ++ pages) fs2
      else expandLoop fileBytes raster rest (imgs ++ [f]) tmp fs

/-- Lines 345-390, the per-batch model calls: `modelResponse i` is the
external OpenAI call plus `JSON.parse` for batch `i` (an error models a
thrown provider or parse failure); the first failing batch aborts the
loop and earlier batch results are discarded. -/
def runBatches (modelResponse : Nat → Except String JsonVal) :
    Nat → List (List String) → Except String (List JsonVal)
  | _, [] => .ok []
  | i, _ :: rest =>
      match modelResponse i with
      | .error e => .error e
      | .ok d => (runBatches modelResponse (i + 1) rest).map (fun ds => d :: ds)

/-- Lines 260-265, the first phase of `cleanupTempImages`: unlink each
registered path that exists. `fail p = true` models `fs.unlinkSync p`
throwing; the throw leaves the loop for the line-277 `catch`, so the
boolean result records whether the rest of the cleanup was skipped. -/
def cleanupLoop (fail : String → Bool) : List String → List String → (List String × Bool)
  | [], fs => (fs, false)
  | p :: rest, fs =>
      if p ∈ fs then
        if fail p then (fs, true)
        else cleanupLoop fail rest (fs.erase p)
      else cleanupLoop fail rest fs

/-- Lines 268-276, the second phase of `cleanupTempImages`: sweep every
`page*.png` of a snapshot of the temp-directory listing; an unlink throw
again aborts into the `catch`. -/
def sweepLoop (fail : String → Bool) : List String → List String → List String
  | [], fs => fs
  | f :: rest, fs =>
      if isPage f then
        if fail f then fs
        else sweepLoop fail rest (fs.erase f)
      else sweepLoop fail rest fs

/-- Lines 258-280, `cleanupTempImages` on the temp-directory listing `fs`:
both phases run inside one `try`; any unlink error is caught and only
logged, so the function always returns a listing and never throws, but a
throw in phase one skips phase two and the rest of phase one. -/
def cleanupTempImages (fail : String → Bool) (imagePaths fs : List String) : List String :=
  match cleanupLoop fail imagePaths fs with
  | (fs1, true) => fs1
  | (fs1, false) => sweepLoop fail fs1 fs1

/-- Lines 307-417, `extractDataWithOpenAI`: expand the input files (PDFs
through the rasterizer, images passed through), fail when no image
resulted, partition into batches, run the model per batch, merge, and on
both the success path and the `catch` path run `cleanupTempImages`
whenever any temp image was registered. The result is the returned (or
rethrown) value, the registered temp paths, and the final temp-directory
listing; `none` means the batch loop is still running after `fuel`
iterations (a non-positive `batchSize` makes it spin forever, so no
cleanup and no error ever happen). -/
def extractDataWithOpenAI (fileBytes : String → List Nat)
    (raster : String → Except String (List String))
    (modelResponse : Nat → Except String JsonVal) (unlinkFail : String → Bool)
    (files : List String) (batchSize : Int) (fuel : Nat) (fs0 : List String) :
    Option (Except String JsonVal × List String × List String) :=
  match expandLoop fileBytes raster files [] [] fs0 with
  | (_, tmp, fs, some e) =>
      some (.error e, tmp, if tmp.isEmpty then fs else cleanupTempImages unlinkFail tmp fs)
  | (imgs, tmp, fs, none) =>
      if imgs.isEmpty then
        some (.error "No images to process", tmp,
          if tmp.isEmpty then fs else cleanupTempImages unlinkFail tmp fs)
      else
        match batchLoop imgs batchSize fuel 0 with
        | none => none
        | some batches =>
            match runBatches modelResponse 0 batches with
            | .error e =>
                some (.error e, tmp, if tmp.isEmpty then fs else cleanupTempImages unlinkFail tmp fs)
            | .ok results =>
                some (.ok ((mergeExtractedData results).getD .null), tmp,
                  if tmp.isEmpty then fs else cleanupTempImages unlinkFail tmp fs)

/-- A JS object reference: a heap address paired with the value stored
there. Two references with different addresses are independent objects
even when their values coincide. -/
structure JsRef where
  addr : Nat
  val : JsonVal

/-- `mergeExtractedData` at the reference level. `fresh` is the address of
the object a `JSON.parse(JSON.stringify _)` round-trip would allocate.
Line 229 `return extractedDataArray[0]` returns the stored reference
itself, so the singleton case passes the input address through; only the
multi-result case allocates. -/
def mergeExtractedDataRef (fresh : Nat) (arr : List JsRef) : Option JsRef :=
  match arr with
  | [] => none
  | [r] => some r
  | _ => some ⟨fresh, (mergeExtractedData (arr.map JsRef.val)).getD .null⟩

-- ===========================================================================
-- Helper lemmas about JS object reads and writes
-- ===========================================================================

/-- Reading the key just written yields the written value. -/
theorem lookup_setKey_self (l : List (String × JsonVal)) (k : String) (v : JsonVal) :
    (setKey l k v).lookup k = some v := by
  induction l with
  | nil => simp [setKey, List.lookup]
  | cons h t ih =>
      obtain ⟨k0, v0⟩ := h
      by_cases hk : k0 = k
      · simp [setKey, hk, List.lookup]
      · simp only [setKey, if_neg hk, List.lookup]
        have : (k == k0) = false := by
          simp [Ne.symm hk]
        simp [this, ih]

/-- Writing one key leaves reads of any other key unchanged. -/
theorem lookup_setKey_ne (l : List (String × JsonVal)) (k k2 : String) (v : JsonVal)
    (h : k2 ≠ k) : (setKey l k v).lookup k2 = l.lookup k2 := by
  induction l with
  | nil =>
      have : (k2 == k) = false := by simp [h]
      simp [setKey, List.lookup, this]
  | cons hd t ih =>
      obtain ⟨k0, v0⟩ := hd
      by_cases hk : k0 = k
      · subst hk
        have : (k2 == k0) = false := by simp [h]
        simp [setKey, List.lookup, this]
      · simp only [setKey, if_neg hk, List.lookup]
        cases hbe : (k2 == k0) <;> simp [hbe, ih]

/-- Reading the key just assigned on an object. -/
theorem objGet_objSet_self (l : List (String × JsonVal)) (k : String) (v : JsonVal) :
    objGet (objSet (.obj l) k v) k = some v := by
  simp [objSet, objGet, lookup_setKey_self]

/-- Assigning one key leaves reads of any other key unchanged. -/
theorem objGet_objSet_ne (d : JsonVal) (k k2 : String) (v : JsonVal) (h : k2 ≠ k) :
    objGet (objSet d k v) k2 = objGet d k2 := by
  cases d <;> simp [objSet, objGet, lookup_setKey_ne _ _ _ _ h]

/-- Unfolds the object write on a literal object. -/
theorem objSet_obj (l : List (String × JsonVal)) (k : String) (v : JsonVal) :
    objSet (.obj l) k v = .obj (setKey l k v) := rfl

/-- Reduces `confOverallOf` once the confidence object is known. -/
theorem confOverallOf_of_get (m c : JsonVal) (h : objGet m "extraction_confidence" = some c) :
    confOverallOf m = objGet c "overall" := by
  simp [confOverallOf, h]

/-- Reduces `confLineItemsOf` once the confidence object is known. -/
theorem confLineItemsOf_of_get (m c : JsonVal) (h : objGet m "extraction_confidence" = some c) :
    confLineItemsOf m = objGet c "line_items" := by
  simp [confLineItemsOf, h]

/-- The merged object a two-or-more merge returns, with its three
reassigned keys spelled out. -/
theorem mergeExtractedData_cons_cons (r0 r1 : JsonVal) (rest : List JsonVal) :
    mergeExtractedData (r0 :: r1 :: rest) =
      some (objSet (objSet (objSet r0 "line_items"
          (.arr ((r0 :: r1 :: rest).flatMap jsonLineItems)))
        "extraction_confidence"
          (.obj [("overall",
              .num (((r0 :: r1 :: rest).map confOverallOr0).sum / ((r0 :: r1 :: rest).length))),
            ("line_items", .num ((r0 :: r1 :: rest).flatMap jsonLineItems).length)]))
        "missing_fields" (.arr (dedupKeepFirst ((r0 :: r1 :: rest).flatMap missingOf)))) := by
  simp [mergeExtractedData]

-- ===========================================================================
-- Claim theorems: the merge cluster
-- ===========================================================================

/-- C10: `mergeExtractedData` applied to an empty result list returns
null (modelled as `none`) rather than raising an error or returning an
empty document. -/
theorem merge_empty_returns_null : mergeExtractedData [] = none := rfl

/-- C5 counterexample: for a singleton input the merge returns the very
input reference (line 229 `return extractedDataArray[0]`): with the input
object stored at address 7 and a fresh address 99 available, the returned
reference still has address 7, so it is not a new, independent structure. -/
theorem merge_single_alias_counterexample :
    mergeExtractedDataRef 99 [⟨7, .obj []⟩] = some ⟨7, .obj []⟩ ∧ (99 : Nat) ≠ 7 :=
  ⟨rfl, by decide⟩

/-- C5 amended: `merge([r])` returns the input element itself — equal
content, but the same reference rather than an independent copy; at the
value level the singleton merge is the identity. -/
theorem merge_single_identity_same_reference :
    (∀ (fresh : Nat) (r : JsRef), mergeExtractedDataRef fresh [r] = some r) ∧
    (∀ r : JsonVal, mergeExtractedData [r] = some r) :=
  ⟨fun _ _ => rfl, fun _ => rfl⟩

/-- C1 counterexample: the spec example `merge([overall=null, overall=0.6])`
should yield `0.6` (nulls excluded from the mean), but the code counts the
null batch as `0` and divides by the total batch count, yielding `0.3`. -/
theorem merge_overall_null_counterexample :
    confOverallOf ((mergeExtractedData
      [.obj [("extraction_confidence", .obj [("overall", .null)])],
       .obj [("extraction_confidence", .obj [("overall", .num (3/5))])]]).getD .null)
      = some (.num (3/10)) ∧ (3/10 : Rat) ≠ 3/5 := by
  constructor
  · rw [mergeExtractedData_cons_cons]
    simp only [Option.getD_some]
    rw [confOverallOf_of_get _ _ (by
      rw [objGet_objSet_ne _ _ _ _ (by decide), objSet_obj, objGet_objSet_self])]
    simp [objGet, List.lookup, confOverallOr0]
    norm_num
  · norm_num

/-- C1 amended: for two or more results, the merged
`extraction_confidence.overall` is the sum of the per-batch `overall`
values with null or absent values counted as `0`, divided by the total
number of results (absent values are not excluded from the denominator);
with every value present this is the arithmetic mean, e.g.
`merge([0.8, 0.6])` still yields `0.7`. -/
theorem merge_overall_mean_counts_absent_as_zero (l0 : List (String × JsonVal))
    (r1 : JsonVal) (rest : List JsonVal) :
    confOverallOf ((mergeExtractedData (.obj l0 :: r1 :: rest)).getD .null) =
      some (.num (((JsonVal.obj l0 :: r1 :: rest).map confOverallOr0).sum /
        ((JsonVal.obj l0 :: r1 :: rest).length))) := by
  rw [mergeExtractedData_cons_cons]
  simp only [Option.getD_some]
  rw [confOverallOf_of_get _ _ (by
    rw [objGet_objSet_ne _ _ _ _ (by decide), objSet_obj, objGet_objSet_self])]
  simp [objGet, List.lookup]

/-- C7: for two or more results the merged `line_items` is the
concatenation of the per-batch `line_items` in batch order (absent
`line_items` contributing nothing), its length is the sum of the
per-batch lengths, and `extraction_confidence.line_items` equals that
merged count. -/
theorem merge_line_items_concat (l0 : List (String × JsonVal))
    (r1 : JsonVal) (rest : List JsonVal) :
    ∃ m, mergeExtractedData (.obj l0 :: r1 :: rest) = some m ∧
      objGet m "line_items" =
        some (.arr ((JsonVal.obj l0 :: r1 :: rest).flatMap jsonLineItems)) ∧
      ((JsonVal.obj l0 :: r1 :: rest).flatMap jsonLineItems).length =
        ((JsonVal.obj l0 :: r1 :: rest).map (fun d => (jsonLineItems d).length)).sum ∧
      confLineItemsOf m =
        some (.num (((JsonVal.obj l0 :: r1 :: rest).flatMap jsonLineItems).length)) := by
  refine ⟨_, mergeExtractedData_cons_cons _ _ _, ?_, ?_, ?_⟩
  · rw [objGet_objSet_ne _ _ _ _ (by decide), objGet_objSet_ne _ _ _ _ (by decide),
      objGet_objSet_self]
  · rw [List.length_flatMap]
    rfl
  · rw [confLineItemsOf_of_get _ _ (by
      rw [objGet_objSet_ne _ _ _ _ (by decide), objSet_obj, objGet_objSet_self])]
    simp [objGet, List.lookup]

/-- C9: for two or more results, every top-level field of the merged
result other than the three reassigned keys `line_items`,
`extraction_confidence` and `missing_fields` reads exactly as on the
first result — the first batch header, party and routing fields pass
through unmodified, together with all their sub-fields, since the whole
stored value is preserved. -/
theorem merge_frame_fields (l0 : List (String × JsonVal)) (r1 : JsonVal)
    (rest : List JsonVal) (k : String)
    (hk : k ∉ ["line_items", "extraction_confidence", "missing_fields"]) :
    ∃ m, mergeExtractedData (.obj l0 :: r1 :: rest) = some m ∧
      objGet m k = objGet (.obj l0) k := by
  have h1 : k ≠ "line_items" := fun h => hk (by simp [h])
  have h2 : k ≠ "extraction_confidence" := fun h => hk (by simp [h])
  have h3 : k ≠ "missing_fields" := fun h => hk (by simp [h])
  refine ⟨_, mergeExtractedData_cons_cons _ _ _, ?_⟩
  rw [objGet_objSet_ne _ _ _ _ h3, objGet_objSet_ne _ _ _ _ h2,
    objGet_objSet_ne _ _ _ _ h1]

/-- C9 witness: a concrete shipper field of the first batch survives a
two-batch merge unchanged. -/
theorem merge_frame_fields_witness :
    ("shipper" ∉ (["line_items", "extraction_confidence", "missing_fields"] : List String)) ∧
    ∃ m, mergeExtractedData
        [.obj [("shipper", .str "ACME"), ("extraction_confidence", .obj [("overall", .num 1)])],
         .obj [("line_items", .arr [.str "row"])]] = some m ∧
      objGet m "shipper" =
        objGet (.obj [("shipper", .str "ACME"),
          ("extraction_confidence", .obj [("overall", .num 1)])]) "shipper" :=
  ⟨by decide, merge_frame_fields _ _ _ _ (by decide)⟩

-- ===========================================================================
-- Helper lemmas about the batch partition
-- ===========================================================================

/-- The empty list has no chunks. -/
theorem chunks_nil (B : Nat) : chunks B ([] : List α) = [] := by
  simp [chunks, chunksAux]

/-- One unfolding of `chunks` on a nonempty list, for a positive size. -/
theorem chunks_cons (B : Nat) (hB : 0 < B) (a : α) (l : List α) :
    chunks B (a :: l) = ((a :: l).take B) :: chunks B ((a :: l).drop B) := by
  have hb : B - 1 + 1 = B := by omega
  rw [chunks, chunksAux, chunks]
  rw [hb]
  have : (a :: l).drop B = l.drop (B - 1) := by
    conv_lhs => rw [← hb]
    rw [List.drop_succ_cons]
  rw [this]

/-- A chunk list is empty exactly on empty input. -/
theorem chunks_eq_nil_iff (B : Nat) (hB : 0 < B) (l : List α) :
    chunks B l = [] ↔ l = [] := by
  cases l with
  | nil => simp [chunks_nil]
  | cons a t => rw [chunks_cons B hB]; simp

/-- Concatenating the chunks in order reproduces the list. -/
theorem chunks_flatten (B : Nat) (hB : 0 < B) :
    ∀ (n : Nat) (l : List α), l.length ≤ n → (chunks B l).flatten = l := by
  intro n
  induction n with
  | zero =>
      intro l hl
      have : l = [] := by
        cases l with
        | nil => rfl
        | cons a t => simp at hl
      subst this
      simp [chunks_nil]
  | succ n ih =>
      intro l hl
      cases l with
      | nil => simp [chunks_nil]
      | cons a t =>
          rw [chunks_cons B hB, List.flatten_cons,
            ih ((a :: t).drop B) (by simp only [List.length_drop, List.length_cons] at hl ⊢; omega),
            List.take_append_drop]

/-- The number of chunks is the ceiling of length over size. -/
theorem chunks_length (B : Nat) (hB : 0 < B) :
    ∀ (n : Nat) (l : List α), l.length ≤ n →
      (chunks B l).length = (l.length + (B - 1)) / B := by
  intro n
  induction n with
  | zero =>
      intro l hl
      have : l = [] := by
        cases l with
        | nil => rfl
        | cons a t => simp at hl
      subst this
      simp [chunks_nil]
      rw [Nat.div_eq_of_lt (by omega)]
  | succ n ih =>
      intro l hl
      cases l with
      | nil =>
          simp [chunks_nil]
          rw [Nat.div_eq_of_lt (by omega)]
      | cons a t =>
          rw [chunks_cons B hB, List.length_cons,
            ih ((a :: t).drop B) (by simp only [List.length_drop, List.length_cons] at hl ⊢; omega)]
          simp only [List.length_drop, List.length_cons]
          by_cases hcase : B ≤ t.length + 1
          · have heq : t.length + 1 + (B - 1) = (t.length + 1 - B + (B - 1)) + B := by omega
            rw [heq, Nat.add_div_right _ hB]
          · have h0 : t.length + 1 - B = 0 := by omega
            rw [h0]
            rw [Nat.div_eq_of_lt (by omega)]
            have hdiv : (t.length + 1 + (B - 1)) / B = 1 :=
              @Nat.div_eq_of_lt_le 1 B (t.length + 1 + (B - 1)) (by omega) (by omega)
            omega

/-- Every chunk except possibly the last has exactly the configured size. -/
theorem chunks_dropLast_length (B : Nat) (hB : 0 < B) :
    ∀ (n : Nat) (l : List α), l.length ≤ n →
      ∀ b ∈ (chunks B l).dropLast, b.length = B := by
  intro n
  induction n with
  | zero =>
      intro l hl
      have : l = [] := by
        cases l with
        | nil => rfl
        | cons a t => simp at hl
      subst this
      simp [chunks_nil]
  | succ n ih =>
      intro l hl
      cases l with
      | nil => simp [chunks_nil]
      | cons a t =>
          rw [chunks_cons B hB]
          by_cases hrest : chunks B ((a :: t).drop B) = []
          · rw [hrest]
            simp
          · rw [List.dropLast_cons_of_ne_nil hrest]
            intro b hb
            rcases List.mem_cons.mp hb with hb | hb
            · subst hb
              have hne : (a :: t).drop B ≠ [] := by
                intro h
                exact hrest (by rw [h, chunks_nil])
              have : B < t.length + 1 := by
                by_contra hc
                exact hne (List.drop_eq_nil_of_le (by simp; omega))
              simp [List.length_take]
              omega
            · exact ih ((a :: t).drop B) (by simp only [List.length_drop, List.length_cons] at hl ⊢; omega) b hb

/-- The last chunk carries the remainder of the length modulo the size
(the full size when the size divides the length). -/
theorem chunks_getLast (B : Nat) (hB : 0 < B) :
    ∀ (n : Nat) (l : List α), l.length ≤ n → l ≠ [] →
      ∃ lb, (chunks B l).getLast? = some lb ∧
        lb.length = (if l.length % B = 0 then B else l.length % B) := by
  intro n
  induction n with
  | zero =>
      intro l hl hne
      exfalso
      cases l with
      | nil => exact hne rfl
      | cons a t => simp at hl
  | succ n ih =>
      intro l hl hne
      cases l with
      | nil => exact absurd rfl hne
      | cons a t =>
          rw [chunks_cons B hB]
          by_cases hrest : (a :: t).drop B = []
          · rw [hrest, chunks_nil]
            have hlen : t.length + 1 ≤ B := by
              by_contra hc
              have : (a :: t).drop B ≠ [] := by
                intro h
                have := congrArg List.length h
                simp [List.length_drop] at this
                omega
              exact this hrest
            refine ⟨(a :: t).take B, rfl, ?_⟩
            simp [List.length_take]
            by_cases hEq : t.length + 1 = B
            · rw [hEq]
              simp [Nat.mod_self]
            · have hlt : t.length + 1 < B := by omega
              rw [Nat.mod_eq_of_lt (by simpa using hlt)]
              simp only [List.length_cons] at hlt ⊢
              rw [if_neg (by omega)]
              omega
          · have hq : chunks B ((a :: t).drop B) ≠ [] :=
              fun h => hrest ((chunks_eq_nil_iff B hB _).mp h)
            obtain ⟨lb, hlb, hlen⟩ :=
              ih ((a :: t).drop B) (by simp only [List.length_drop, List.length_cons] at hl ⊢; omega) hrest
            refine ⟨lb, ?_, ?_⟩
            · rw [List.getLast?_cons, hlb]
              simp
            · rw [hlen]
              have hBle : B ≤ t.length + 1 := by
                by_contra hc
                exact hrest (List.drop_eq_nil_of_le (by simp; omega))
              simp only [List.length_drop, List.length_cons]
              have hmod : (t.length + 1 - B) % B = (t.length + 1) % B := by
                conv_rhs => rw [show t.length + 1 = (t.length + 1 - B) + B by omega]
                rw [Nat.add_mod_right]
              rw [hmod]

/-- For a nonnegative start inside the list and a nonnegative span,
`slice(i, i + B)` is take-after-drop. -/
theorem jsSlice_take_drop (P : List α) (i B : Int) (hi : 0 ≤ i) (hB : 0 ≤ B)
    (hin : i.toNat ≤ P.length) :
    jsSlice P i (i + B) = (P.drop i.toNat).take B.toNat := by
  unfold jsSlice jsSliceIdx
  rw [if_neg (by omega), if_neg (by omega)]
  rw [Nat.min_eq_left hin, List.drop_take]
  rw [List.take_eq_take]
  simp only [List.length_drop]
  omega

/-- The batch loop of lines 338-341, run with enough fuel from a
nonnegative index, produces exactly the contiguous chunks of the
remaining pages, for any positive batch size. -/
theorem batchLoop_eq_chunks (P : List α) (B : Int) (hB : 0 < B) :
    ∀ (fuel : Nat) (i : Int), 0 ≤ i → P.length ≤ i.toNat + fuel →
      batchLoop P B fuel i = some (chunks B.toNat (P.drop i.toNat)) := by
  intro fuel
  induction fuel with
  | zero =>
      intro i hi hlen
      have hguard : ¬ (i < (P.length : Int)) := by omega
      rw [batchLoop, if_neg hguard]
      rw [List.drop_eq_nil_of_le (by omega), chunks_nil]
  | succ fuel ih =>
      intro i hi hlen
      by_cases hguard : i < (P.length : Int)
      · rw [batchLoop, if_pos hguard, ih (i + B) (by omega) (by omega)]
        have hne : P.drop i.toNat ≠ [] := by
          intro h
          have := congrArg List.length h
          simp only [List.length_drop, List.length_nil] at this
          omega
        obtain ⟨a, t, hat⟩ := List.exists_cons_of_ne_nil hne
        rw [jsSlice_take_drop P i B hi (by omega) (by omega)]
        rw [Option.map_some']
        congr 1
        rw [hat, chunks_cons B.toNat (by omega), ← hat]
        congr 2
        rw [List.drop_drop]
        congr 1
        omega
      · rw [batchLoop, if_neg hguard]
        rw [List.drop_eq_nil_of_le (by omega), chunks_nil]

-- ===========================================================================
-- Claim theorems: the batch cluster
-- ===========================================================================

/-- C6: for every page list and every positive batch size, the partition
step terminates and yields the contiguous chunks: concatenating them in
order reproduces the page list exactly; there are ceil(N/B) batches;
every batch except possibly the last has exactly B pages; and the last
batch (when the list is nonempty) has N mod B pages, or B when B divides
N. -/
theorem partition_roundtrip_and_sizes (P : List α) (B : Int) (hB : 0 < B) :
    partitionBatches P B = some (chunks B.toNat P) ∧
    (chunks B.toNat P).flatten = P ∧
    (chunks B.toNat P).length = (P.length + (B.toNat - 1)) / B.toNat ∧
    (∀ b ∈ (chunks B.toNat P).dropLast, b.length = B.toNat) ∧
    (P ≠ [] → ∃ lb, (chunks B.toNat P).getLast? = some lb ∧
      lb.length = (if P.length % B.toNat = 0 then B.toNat else P.length % B.toNat)) := by
  have hBn : 0 < B.toNat := by omega
  refine ⟨?_, chunks_flatten B.toNat hBn P.length P le_rfl,
    chunks_length B.toNat hBn P.length P le_rfl,
    chunks_dropLast_length B.toNat hBn P.length P le_rfl,
    fun hne => chunks_getLast B.toNat hBn P.length P le_rfl hne⟩
  have := batchLoop_eq_chunks P B hB P.length 0 le_rfl (by simp)
  simpa [partitionBatches] using this

/-- C6 witness: seven pages with batch size three give batches of sizes
three, three and one. -/
theorem partition_roundtrip_and_sizes_witness :
    (0 : Int) < 3 ∧
    (partitionBatches ["p1", "p2", "p3", "p4", "p5", "p6", "p7"] 3 =
        some (chunks 3 ["p1", "p2", "p3", "p4", "p5", "p6", "p7"]) ∧
      (chunks 3 ["p1", "p2", "p3", "p4", "p5", "p6", "p7"]).flatten =
        ["p1", "p2", "p3", "p4", "p5", "p6", "p7"] ∧
      (chunks 3 ["p1", "p2", "p3", "p4", "p5", "p6", "p7"]).length =
        (7 + (3 - 1)) / 3 ∧
      (∀ b ∈ (chunks 3 ["p1", "p2", "p3", "p4", "p5", "p6", "p7"]).dropLast,
        b.length = 3) ∧
      ((["p1", "p2", "p3", "p4", "p5", "p6", "p7"] : List String) ≠ [] →
        ∃ lb, (chunks 3 ["p1", "p2", "p3", "p4", "p5", "p6", "p7"]).getLast? = some lb ∧
          lb.length = (if 7 % 3 = 0 then 3 else 7 % 3))) :=
  ⟨by decide, partition_roundtrip_and_sizes ["p1", "p2", "p3", "p4", "p5", "p6", "p7"] 3
    (by decide)⟩

/-- C2: no InvalidConfigurationError exists in the code; for a
non-positive batch size and a nonempty page list the batch-building loop
of lines 338-341 never advances its index past the list, so it never
terminates and never raises: after any number of iterations it is still
running, and no partition is ever produced. -/
theorem batch_loop_spins_on_nonpositive_size (B : Int) (hB : B ≤ 0) (P : List α)
    (hP : P ≠ []) :
    (∀ fuel : Nat, ∀ i : Int, i ≤ 0 → batchLoop P B fuel i = none) ∧
    partitionBatches P B = none := by
  have hlen : 0 < P.length := List.length_pos.mpr hP
  have main : ∀ fuel : Nat, ∀ i : Int, i ≤ 0 → batchLoop P B fuel i = none := by
    intro fuel
    induction fuel with
    | zero =>
        intro i hi
        rw [batchLoop, if_pos (by omega)]
    | succ fuel ih =>
        intro i hi
        rw [batchLoop, if_pos (by omega), ih (i + B) (by omega)]
        rfl
  exact ⟨main, main P.length 0 le_rfl⟩

/-- C2 witness: with batch size zero (and also any negative size) on a
single page, the loop is still running after any number of iterations. -/
theorem batch_loop_spins_witness :
    ((0 : Int) ≤ 0 ∧ (["page-1.png"] : List String) ≠ []) ∧
    ((∀ fuel : Nat, ∀ i : Int, i ≤ 0 → batchLoop ["page-1.png"] 0 fuel i = none) ∧
      partitionBatches ["page-1.png"] (0 : Int) = none) :=
  ⟨⟨le_rfl, by decide⟩, batch_loop_spins_on_nonpositive_size 0 le_rfl ["page-1.png"]
    (by decide)⟩

-- ===========================================================================
-- Claim theorems: file classification
-- ===========================================================================

/-- C3 counterexample: a file whose bytes begin with the `%PDF` signature
but whose name ends in `.png` is not classified as a PDF — line 289
returns early on the extension before the content signature is ever
consulted, so classification is not decided by magic bytes alone. -/
theorem pdf_magic_without_ext_counterexample :
    hasPdfMagic ((fun _ => [0x25, 0x50, 0x44, 0x46, 0x2D]) "doc.png") = true ∧
    isPdfFile (fun _ => [0x25, 0x50, 0x44, 0x46, 0x2D]) "doc.png" = false := by
  constructor
  · rfl
  · decide

/-- C3 amended: a file is classified as a PDF exactly when both its
lower-cased filename extension is `.pdf` and its content begins with the
`%PDF` signature; in particular the content signature alone never
suffices, while a file without the signature is indeed never classified
as a PDF. -/
theorem isPdfFile_iff_ext_and_magic (fileBytes : String → List Nat) (filePath : String) :
    isPdfFile fileBytes filePath = true ↔
      (lowerStr (extname filePath) = ".pdf" ∧ hasPdfMagic (fileBytes filePath) = true) := by
  unfold isPdfFile
  by_cases h : lowerStr (extname filePath) = ".pdf"
  · simp [h]
  · simp [h]

-- ===========================================================================
-- Claim theorems: rasterization failure behaviour
-- ===========================================================================

/-- Concrete byte store for the pipeline examples: `a.pdf` holds a real
PDF signature, any other name holds PNG bytes. -/
def exampleBytes : String → List Nat :=
  fun p => if p = "a.pdf" then [0x25, 0x50, 0x44, 0x46, 0x31] else [0x89, 0x50, 0x4E, 0x47]

/-- C4 counterexample: a PDF whose rasterization succeeds with zero pages
raises nothing — `convertPdfToImages` returns an empty page list, and a
request with such a PDF next to an ordinary image completes successfully,
the PDF having silently contributed no pages. -/
theorem zero_page_pdf_silent_counterexample :
    convertPdfToImages (.ok []) [] = .ok ([], []) ∧
    extractDataWithOpenAI exampleBytes (fun _ => .ok []) (fun _ => .ok (.obj [("x", .num 1)]))
      (fun _ => false) ["a.pdf", "b.png"] 5 10 [] =
      some (.ok (.obj [("x", .num 1)]), [], []) := by
  exact ⟨rfl, rfl⟩

/-- C4 amended: the rasterizer runs once per PDF file; when it reports an
error the conversion rethrows a `Failed to convert PDF to images`
message and the expansion loop aborts with it, failing the request; but
when it succeeds with zero pages the conversion silently returns an
empty page list and the pipeline continues (only a request whose files
contribute no page at all fails, later and with `No images to process`). -/
theorem raster_error_raises_but_zero_pages_pass (msg : String) (fs fs2 created : List String)
    (fileBytes : String → List Nat) (raster : String → Except String (List String))
    (f : String) (rest imgs tmp : List String) (e : String)
    (hpdf : isPdfFile fileBytes f = true) (hraster : raster f = .error e)
    (hzero : (insertAll fs2 created).filter isPage = []) :
    convertPdfToImages (.error msg) fs = .error ("Failed to convert PDF to images: " ++ msg) ∧
    convertPdfToImages (.ok created) fs2 = .ok ([], insertAll fs2 created) ∧
    expandLoop fileBytes raster (f :: rest) imgs tmp fs =
      (imgs, tmp, fs, some ("Failed to convert PDF to images: " ++ e)) := by
  refine ⟨rfl, ?_, ?_⟩
  · simp [convertPdfToImages, listPageFiles, hzero, sortByNum]
  · simp [expandLoop, hpdf, convertPdfToImages, hraster]

/-- C4 witness: concrete instances of the hypotheses of the amended
theorem, with a failing rasterizer on one PDF and an empty temp dir. -/
theorem raster_error_raises_witness :
    (isPdfFile exampleBytes "a.pdf" = true ∧
      (fun _ : String => (.error "boom" : Except String (List String))) "a.pdf" =
        .error "boom" ∧
      (insertAll [] []).filter isPage = []) ∧
    (convertPdfToImages (.error "down") [] =
        .error ("Failed to convert PDF to images: " ++ "down") ∧
      convertPdfToImages (.ok []) [] = .ok ([], insertAll [] []) ∧
      expandLoop exampleBytes (fun _ => .error "boom") ["a.pdf"] [] [] [] =
        ([], [], [], some ("Failed to convert PDF to images: " ++ "boom"))) :=
  ⟨⟨rfl, rfl, rfl⟩,
    raster_error_raises_but_zero_pages_pass "down" [] [] [] exampleBytes
      (fun _ => .error "boom") "a.pdf" [] [] [] "boom" rfl rfl rfl⟩

-- ===========================================================================
-- Helper lemmas about cleanup
-- ===========================================================================

/-- Phase one of cleanup only ever removes files. -/
theorem cleanupLoop_subset (fail : String → Bool) :
    ∀ (paths fs : List String), ∀ q ∈ (cleanupLoop fail paths fs).1, q ∈ fs := by
  intro paths
  induction paths with
  | nil =>
      intro fs q h
      simpa [cleanupLoop] using h
  | cons p rest ih =>
      intro fs q h
      rw [cleanupLoop] at h
      by_cases hp : p ∈ fs
      · rw [if_pos hp] at h
        by_cases hf : fail p = true
        · rw [if_pos hf] at h
          simpa using h
        · rw [if_neg hf] at h
          exact List.erase_subset _ _ (ih (fs.erase p) q h)
      · rw [if_neg hp] at h
        exact ih fs q h

/-- Phase one of cleanup keeps the listing duplicate-free. -/
theorem cleanupLoop_nodup (fail : String → Bool) :
    ∀ (paths fs : List String), fs.Nodup → (cleanupLoop fail paths fs).1.Nodup := by
  intro paths
  induction paths with
  | nil =>
      intro fs h
      simpa [cleanupLoop] using h
  | cons p rest ih =>
      intro fs h
      rw [cleanupLoop]
      by_cases hp : p ∈ fs
      · rw [if_pos hp]
        by_cases hf : fail p = true
        · rw [if_pos hf]
          simpa using h
        · rw [if_neg hf]
          exact ih (fs.erase p) (h.erase p)
      · rw [if_neg hp]
        exact ih fs h

/-- When no unlink throws, phase one never aborts. -/
theorem cleanupLoop_flag (fail : String → Bool) (hfail : ∀ p, fail p = false) :
    ∀ (paths fs : List String), (cleanupLoop fail paths fs).2 = false := by
  intro paths
  induction paths with
  | nil =>
      intro fs
      simp [cleanupLoop]
  | cons p rest ih =>
      intro fs
      rw [cleanupLoop]
      by_cases hp : p ∈ fs
      · rw [if_pos hp, hfail p]
        simpa using ih (fs.erase p)
      · rw [if_neg hp]
        exact ih fs

/-- When no unlink throws, phase one deletes every processed path. -/
theorem cleanupLoop_removes (fail : String → Bool) (hfail : ∀ p, fail p = false) :
    ∀ (paths fs : List String), fs.Nodup → ∀ p ∈ paths, p ∉ (cleanupLoop fail paths fs).1 := by
  intro paths
  induction paths with
  | nil =>
      intro fs hnd p hp
      simp at hp
  | cons a rest ih =>
      intro fs hnd p hp
      rw [cleanupLoop]
      by_cases ha : a ∈ fs
      · rw [if_pos ha, hfail a, if_neg (by simp)]
        rcases List.mem_cons.mp hp with rfl | hp2
        · intro hmem
          exact hnd.not_mem_erase (cleanupLoop_subset fail rest (fs.erase p) p hmem)
        · exact ih (fs.erase a) (hnd.erase a) p hp2
      · rw [if_neg ha]
        rcases List.mem_cons.mp hp with rfl | hp2
        · intro hmem
          exact ha (cleanupLoop_subset fail rest fs p hmem)
        · exact ih fs hnd p hp2

/-- The sweep phase also only removes files. -/
theorem sweepLoop_subset (fail : String → Bool) :
    ∀ (snap fs : List String), ∀ q ∈ sweepLoop fail snap fs, q ∈ fs := by
  intro snap
  induction snap with
  | nil =>
      intro fs q h
      simpa [sweepLoop] using h
  | cons f rest ih =>
      intro fs q h
      rw [sweepLoop] at h
      by_cases hf : isPage f = true
      · rw [if_pos hf] at h
        by_cases hff : fail f = true
        · rw [if_pos hff] at h
          exact h
        · rw [if_neg hff] at h
          exact List.erase_subset _ _ (ih (fs.erase f) q h)
      · rw [if_neg hf] at h
        exact ih fs q h

/-- When no unlink throws, no registered path survives
`cleanupTempImages` on a duplicate-free listing. -/
theorem cleanupTempImages_removes (u : String → Bool) (hu : ∀ p, u p = false)
    (paths fs : List String) (hnd : fs.Nodup) :
    ∀ p ∈ paths, p ∉ cleanupTempImages u paths fs := by
  intro p hp
  unfold cleanupTempImages
  rcases hC : cleanupLoop u paths fs with ⟨fs1, flag⟩
  have hflag : flag = false := by
    have := cleanupLoop_flag u hu paths fs
    rw [hC] at this
    exact this
  subst hflag
  intro hmem
  have h1 : p ∈ fs1 := sweepLoop_subset u fs1 fs1 p hmem
  have h2 : p ∉ (cleanupLoop u paths fs).1 := cleanupLoop_removes u hu paths fs hnd p hp
  rw [hC] at h2
  exact h2 h1

/-- Inserting rasterizer output into the listing keeps it duplicate-free. -/
theorem insertAll_nodup :
    ∀ (created fs : List String), fs.Nodup → (insertAll fs created).Nodup := by
  intro created
  induction created with
  | nil =>
      intro fs h
      simpa [insertAll] using h
  | cons n rest ih =>
      intro fs h
      rw [insertAll]
      simp only [List.foldl_cons]
      by_cases hn : n ∈ fs
      · rw [if_pos hn]
        exact ih fs h
      · rw [if_neg hn]
        exact ih (fs ++ [n]) (by simp [List.nodup_append, h, List.disjoint_singleton, hn])

/-- The expansion loop keeps the temp-directory listing duplicate-free. -/
theorem expandLoop_fs_nodup (fb : String → List Nat)
    (ra : String → Except String (List String)) :
    ∀ (files imgs tmp fs : List String), fs.Nodup →
      (expandLoop fb ra files imgs tmp fs).2.2.1.Nodup := by
  intro files
  induction files with
  | nil =>
      intro imgs tmp fs h
      simpa [expandLoop] using h
  | cons f rest ih =>
      intro imgs tmp fs h
      rw [expandLoop]
      by_cases hpdf : isPdfFile fb f = true
      · rw [if_pos hpdf]
        rcases hra : ra f with e | created
        · simpa [convertPdfToImages] using h
        · simp only [convertPdfToImages]
          exact ih _ _ (insertAll fs created) (insertAll_nodup created fs h)
      · rw [if_neg hpdf]
        exact ih _ _ fs h

/-- Injectivity of the common exit shape of the pipeline: the returned
listing is the untouched one when nothing was registered, and the
cleaned one otherwise. -/
theorem finish_inj (u : String → Bool) (r0 res : Except String JsonVal)
    (tmp0 fs tmp fsF : List String)
    (h : (some (r0, tmp0, if tmp0.isEmpty = true then fs else cleanupTempImages u tmp0 fs) :
        Option (Except String JsonVal × List String × List String)) = some (res, tmp, fsF)) :
    tmp = [] ∨ fsF = cleanupTempImages u tmp fs := by
  simp only [Option.some.injEq, Prod.mk.injEq] at h
  obtain ⟨-, h2, h3⟩ := h
  subst h2
  by_cases he : tmp0.isEmpty = true
  · exact Or.inl (List.isEmpty_iff.mp he)
  · rw [if_neg he] at h3
    exact Or.inr h3.symm

/-- Whenever the pipeline terminates, the listing it returns is either
the untouched one (no temp image was registered) or the result of one
`cleanupTempImages` pass over a duplicate-free listing: cleanup runs on
the success exit and on every error exit alike. -/
theorem extract_fs_cases (fb : String → List Nat)
    (ra : String → Except String (List String)) (mo : Nat → Except String JsonVal)
    (u : String → Bool) (files : List String) (B : Int) (fuel : Nat) (fs0 : List String)
    (res : Except String JsonVal) (tmp fsF : List String) (hnd : fs0.Nodup)
    (hrun : extractDataWithOpenAI fb ra mo u files B fuel fs0 = some (res, tmp, fsF)) :
    ∃ fs : List String, fs.Nodup ∧
      (tmp = [] ∨ fsF = cleanupTempImages u tmp fs) := by
  unfold extractDataWithOpenAI at hrun
  rcases hE : expandLoop fb ra files [] [] fs0 with ⟨imgs, tmp0, fs, errOpt⟩
  have hfs : fs.Nodup := by
    have := expandLoop_fs_nodup fb ra files [] [] fs0 hnd
    rw [hE] at this
    exact this
  rw [hE] at hrun
  refine ⟨fs, hfs, ?_⟩
  cases errOpt with
  | some e =>
      dsimp only at hrun
      exact finish_inj u _ res tmp0 fs tmp fsF hrun
  | none =>
      dsimp only at hrun
      by_cases himgs : imgs.isEmpty = true
      · rw [if_pos himgs] at hrun
        exact finish_inj u _ res tmp0 fs tmp fsF hrun
      · rw [if_neg himgs] at hrun
        rcases hBL : batchLoop imgs B fuel 0 with _ | batches <;> rw [hBL] at hrun
        · simp at hrun
        · dsimp only at hrun
          rcases hRB : runBatches mo 0 batches with e2 | results <;> rw [hRB] at hrun <;>
            dsimp only at hrun
          · exact finish_inj u _ res tmp0 fs tmp fsF hrun
          · exact finish_inj u _ res tmp0 fs tmp fsF hrun

-- ===========================================================================
-- Claim theorems: cleanup behaviour
-- ===========================================================================

/-- C8 counterexample: one PDF produces two registered page images and
the very first unlink fails; the failure is caught and only logged, but
it aborts the rest of the cleanup pass, so the registered `page-2.png` —
whose deletion was never even attempted — remains on disk after the
request completes successfully, contradicting that no registered temp
file remains. -/
theorem cleanup_aborted_on_unlink_error_counterexample :
    extractDataWithOpenAI exampleBytes (fun _ => .ok ["page-1.png", "page-2.png"])
      (fun _ => .ok (.obj [])) (fun p => p == "page-1.png") ["a.pdf"] 5 10 [] =
      some (.ok (.obj []), ["page-1.png", "page-2.png"], ["page-1.png", "page-2.png"]) := by
  exact rfl

/-- C8 amended: cleanup of registered temp files runs on every
terminating exit path, and when no deletion fails no registered temp
file remains afterwards; a registered path that is already missing is
skipped without error; a deletion error is caught inside cleanup and
never changes the returned (or rethrown) result — but it aborts the rest
of that cleanup pass, so registered files after the failing one may
remain. -/
theorem cleanup_every_exit_no_mask :
    (∀ (fb : String → List Nat) (ra : String → Except String (List String))
      (mo : Nat → Except String JsonVal) (u : String → Bool) (files : List String)
      (B : Int) (fuel : Nat) (fs0 : List String) (res : Except String JsonVal)
      (tmp fsF : List String), fs0.Nodup → (∀ p, u p = false) →
      extractDataWithOpenAI fb ra mo u files B fuel fs0 = some (res, tmp, fsF) →
      ∀ p ∈ tmp, p ∉ fsF) ∧
    (∀ (fail : String → Bool) (p : String) (rest fs : List String), p ∉ fs →
      cleanupLoop fail (p :: rest) fs = cleanupLoop fail rest fs) ∧
    (∀ (fb : String → List Nat) (ra : String → Except String (List String))
      (mo : Nat → Except String JsonVal) (u1 u2 : String → Bool) (files : List String)
      (B : Int) (fuel : Nat) (fs0 : List String),
      (extractDataWithOpenAI fb ra mo u1 files B fuel fs0).map (fun r => r.1) =
        (extractDataWithOpenAI fb ra mo u2 files B fuel fs0).map (fun r => r.1)) := by
  refine ⟨?_, ?_, ?_⟩
  · intro fb ra mo u files B fuel fs0 res tmp fsF hnd hu hrun p hp
    obtain ⟨fs, hfs, hcase⟩ :=
      extract_fs_cases fb ra mo u files B fuel fs0 res tmp fsF hnd hrun
    rcases hcase with rfl | hclean
    · simp at hp
    · rw [hclean]
      exact cleanupTempImages_removes u hu tmp fs hfs p hp
  · intro fail p rest fs hp
    rw [cleanupLoop, if_neg hp]
  · intro fb ra mo u1 u2 files B fuel fs0
    unfold extractDataWithOpenAI
    rcases hE : expandLoop fb ra files [] [] fs0 with ⟨imgs, tmp0, fs, errOpt⟩
    cases errOpt with
    | some e => simp
    | none =>
        dsimp only
        by_cases himgs : imgs.isEmpty = true
        · rw [if_pos himgs, if_pos himgs]
          simp
        · rw [if_neg himgs, if_neg himgs]
          rcases hBL : batchLoop imgs B fuel 0 with _ | batches
          · simp
          · dsimp only
            rcases hRB : runBatches mo 0 batches with e2 | results <;> simp [hRB]

/-- C8 witness: a concrete request converting one PDF into two page
images, with every unlink succeeding, leaves no registered file in the
final listing; a registered path absent from the listing is skipped; and
swapping the unlink behaviour does not change the returned result. -/
theorem cleanup_every_exit_no_mask_witness :
    (([] : List String).Nodup ∧ (∀ p, (fun _ : String => false) p = false) ∧
      extractDataWithOpenAI exampleBytes (fun _ => .ok ["page-1.png", "page-2.png"])
        (fun _ => .ok (.obj [])) (fun _ => false) ["a.pdf"] 5 10 [] =
        some (.ok (.obj []), ["page-1.png", "page-2.png"], []) ∧
      (∀ p ∈ (["page-1.png", "page-2.png"] : List String), p ∉ ([] : List String))) ∧
    (("gone.png" : String) ∉ (["page-9.png"] : List String) ∧
      cleanupLoop (fun _ => false) ["gone.png"] ["page-9.png"] =
        cleanupLoop (fun _ => false) [] ["page-9.png"]) ∧
    (extractDataWithOpenAI exampleBytes (fun _ => .ok ["page-1.png", "page-2.png"])
        (fun _ => .ok (.obj [])) (fun p => p == "page-1.png") ["a.pdf"] 5 10 []).map
        (fun r => r.1) =
      (extractDataWithOpenAI exampleBytes (fun _ => .ok ["page-1.png", "page-2.png"])
        (fun _ => .ok (.obj [])) (fun _ => false) ["a.pdf"] 5 10 []).map (fun r => r.1) :=
  ⟨⟨List.nodup_nil, fun _ => rfl, rfl,
      cleanup_every_exit_no_mask.1 exampleBytes (fun _ => .ok ["page-1.png", "page-2.png"])
        (fun _ => .ok (.obj [])) (fun _ => false) ["a.pdf"] 5 10 [] (.ok (.obj []))
        ["page-1.png", "page-2.png"] [] List.nodup_nil (fun _ => rfl) rfl⟩,
    ⟨by decide, cleanup_every_exit_no_mask.2.1 (fun _ => false) "gone.png" [] ["page-9.png"]
      (by decide)⟩,
    cleanup_every_exit_no_mask.2.2 exampleBytes (fun _ => .ok ["page-1.png", "page-2.png"])
      (fun _ => .ok (.obj [])) (fun p => p == "page-1.png") (fun _ => false) ["a.pdf"] 5 10 []⟩
